import Mathlib

/-!
Verification of the DistFS distributed block-storage core.

This file gives a shallow embedding, translated from the C sources of the
DistFS project, of the parts of the system the specification talks about:

* the replication engine (`src/storage/replication.c`),
* the block allocator (`src/storage/block_manager.c`),
* the storage node block I/O (`src/storage/storage_node.c`),
* the consistent-hash placement ring and hash functions (`src/common/hash.c`),
* the wire protocol header constants (`include/network.h`).

Machine integers are modelled as `Nat`, with explicit masking where the C
code relies on wrap-around.  Error codes follow the `distfs_error_t` enum.
Definitions keep the C names where Lean allows it; theorems at the end settle
the specification's claims against these definitions.
-/

namespace DistFS

/-- Error codes from `distfs_error_t` in `include/distfs.h`
(values are the C enum values, as integers). -/
inductive DistfsError where
  | success
  | invalidParam
  | noMemory
  | networkFailure
  | consistencyViolation
  | storageFull
  | systemErr
  | fileOpenFailed
  | notFound
  | unsupportedOperation
deriving DecidableEq, Repr

/-! ## Replication engine (`src/storage/replication.c`) -/

/-- Task states from `replication_status_t` in `src/storage/replication.c`. -/
inductive ReplicationStatus where
  | pending
  | inProgress
  | completed
  | failed
deriving DecidableEq, Repr

/-- A replication task, from `replication_task_t` in `src/storage/replication.c`.
The C fixed-size array `target_nodes[DISTFS_MAX_REPLICAS][64]` together with
`target_count` is modelled as the list `target_nodes`; the intrusive `next`
pointer (queue linkage) and the wall-clock timestamp fields are not part of
the task's logical state and are omitted. -/
structure ReplicationTask where
  task_id : Nat
  block_id : Nat
  source_node : String
  target_nodes : List String
  completed_count : Nat
  status : ReplicationStatus
  retry_count : Nat
deriving DecidableEq, Repr

/-- One execution of a task by a worker: `execute_replication_task` in
`src/storage/replication.c` (lines 277-330).  The per-target network copy
`replicate_block_to_node` is I/O; its outcome for the i-th target is supplied
as `results[i]` (`true` = `DISTFS_SUCCESS`).  The function marks the task
`in_progress`, counts successes and failures over the targets, and then:
if at least one target succeeded the task becomes `completed`; otherwise the
retry counter is incremented and the task becomes `pending` (re-queued) when
the counter is still below `max_retry_count`, else `failed`. -/
def execute_replication_task (max_retry_count : Nat) (task : ReplicationTask)
    (results : List Bool) : ReplicationTask :=
  let started := { task with status := ReplicationStatus.inProgress }
  let success_count := results.count true
  let finished := { started with completed_count := success_count }
  if success_count > 0 then
    { finished with status := ReplicationStatus.completed }
  else
    let retry := finished.retry_count + 1
    if retry < max_retry_count then
      { finished with status := ReplicationStatus.pending, retry_count := retry }
    else
      { finished with status := ReplicationStatus.failed, retry_count := retry }

/-- Default retry bound set in `distfs_replication_manager_create`:
`max_retry_count = 3`. -/
def default_max_retry_count : Nat := 3

/-- The state of a task after `k` executions in which every per-target copy
fails (every `replicate_block_to_node` call returns an error), i.e. `k`
iterations of `execute_replication_task` with an all-`false` result list. -/
def iterate_all_fail (max_retry_count : Nat) (task : ReplicationTask) :
    Nat → ReplicationTask
  | 0 => task
  | k + 1 =>
      let t := iterate_all_fail max_retry_count task k
      execute_replication_task max_retry_count t
        (List.replicate t.target_nodes.length false)

/-- A task as freshly built by `create_replication_task`: status `pending`,
`retry_count = 0`, `completed_count = 0`. -/
def fresh_task (block_id : Nat) (source : String) (targets : List String) :
    ReplicationTask :=
  { task_id := 0
    block_id := block_id
    source_node := source
    target_nodes := targets
    completed_count := 0
    status := ReplicationStatus.pending
    retry_count := 0 }

/-! ## Block allocator (`src/storage/block_manager.c`) -/

/-- Per-block metadata record, from `block_metadata_t` in
`src/storage/block_manager.c`.  `status` is 0 = free, 1 = allocated,
2 = dirty. -/
structure BlockMetadata where
  block_id : Nat
  file_id : Nat
  offset : Nat
  size : Nat
  checksum : Nat
  created_time : Nat
  modified_time : Nat
  ref_count : Nat
  status : Nat
deriving DecidableEq, Repr

/-- The all-zero record produced by `memset(meta, 0, sizeof(block_metadata_t))`
(and by `calloc` of the metadata array). -/
def zeroMetadata : BlockMetadata :=
  { block_id := 0, file_id := 0, offset := 0, size := 0, checksum := 0,
    created_time := 0, modified_time := 0, ref_count := 0, status := 0 }

/-- `set_bit` in `src/storage/block_manager.c`: the 64-bit-word bitmap is
modelled as a list of booleans, one per bit position. -/
def set_bit (bits : List Bool) (bit : Nat) : List Bool := bits.set bit true

/-- `clear_bit` in `src/storage/block_manager.c`. -/
def clear_bit (bits : List Bool) (bit : Nat) : List Bool := bits.set bit false

/-- `test_bit` in `src/storage/block_manager.c`. -/
def test_bit (bits : List Bool) (bit : Nat) : Bool := bits.getD bit false

/-- `find_first_free_bit(bitmap, total_bits)` in `src/storage/block_manager.c`:
scans for the first clear bit below `total_bits` (the word-skip over
all-ones words and the `bit >= total_bits` break reduce to this linear bit
scan).  The extra `base` parameter models the caller's word-pointer offset:
`distfs_block_allocate_batch` passes `bitmap.bits + start_bit / 64`, i.e. the
scan there starts at absolute bit `64 * (start_bit / 64)` and the returned
index is relative to that word-aligned base. -/
def find_first_free_bit (bits : List Bool) (base : Nat) (total_bits : Nat) :
    Option Nat :=
  (List.range total_bits).find? (fun r => !(test_bit bits (base + r)))

/-- The block manager state, from `struct distfs_block_manager` together with
its embedded `block_bitmap_t`.  The bitmap keeps its own `total_blocks` /
`free_blocks` counters and the manager duplicates them; both are modelled.
The data directory, persistence file name and the lock objects carry no
logical state and are omitted; `reads`/`writes` counters are never touched by
the operations under study. -/
structure BlockManager where
  bits : List Bool
  bitmap_total_blocks : Nat
  bitmap_free_blocks : Nat
  total_blocks : Nat
  free_blocks : Nat
  metadata : List BlockMetadata
  allocations : Nat
  deallocations : Nat
deriving DecidableEq, Repr

/-- `distfs_block_manager_create` (fresh start: `load_metadata` finds no
persisted file, which is not an error): an all-clear bitmap, all blocks free,
and the metadata array initialized with `metadata[i].block_id = i`,
`status = 0`. -/
def distfs_block_manager_create (total_blocks : Nat) : BlockManager :=
  { bits := List.replicate total_blocks false
    bitmap_total_blocks := total_blocks
    bitmap_free_blocks := total_blocks
    total_blocks := total_blocks
    free_blocks := total_blocks
    metadata := (List.range total_blocks).map
      (fun i => { zeroMetadata with block_id := i })
    allocations := 0
    deallocations := 0 }

/-- `distfs_block_allocate` (lines 251-296): returns `0` when no free block
exists (the same value the C function also returns for block id 0); otherwise
finds the first clear bit, sets it, decrements both free counters, and
rewrites the metadata record (block id, status allocated, timestamps,
`ref_count = 1`; the other fields are left as they were).  `now` stands for
`time(NULL)`. -/
def distfs_block_allocate (m : BlockManager) (now : Nat) : BlockManager × Nat :=
  if m.bitmap_free_blocks = 0 then (m, 0)
  else
    match find_first_free_bit m.bits 0 m.bitmap_total_blocks with
    | none => (m, 0)
    | some block_id =>
        let meta := m.metadata.getD block_id zeroMetadata
        ({ m with
            bits := set_bit m.bits block_id
            bitmap_free_blocks := m.bitmap_free_blocks - 1
            free_blocks := m.free_blocks - 1
            metadata := m.metadata.set block_id
              { meta with block_id := block_id, status := 1,
                          created_time := now, modified_time := now,
                          ref_count := 1 }
            allocations := m.allocations + 1 },
         block_id)

/-- `distfs_block_free` (lines 299-336): rejects an out-of-range id and an
already-clear bit with `InvalidParam`; otherwise clears the bit, increments
both free counters, and zeroes the metadata record, then rewrites its
`block_id` field (status stays 0 = free). -/
def distfs_block_free (m : BlockManager) (block_id : Nat) :
    DistfsError × BlockManager :=
  if m.total_blocks ≤ block_id then (DistfsError.invalidParam, m)
  else if test_bit m.bits block_id = false then (DistfsError.invalidParam, m)
  else
    (DistfsError.success,
     { m with
        bits := clear_bit m.bits block_id
        bitmap_free_blocks := m.bitmap_free_blocks + 1
        free_blocks := m.free_blocks + 1
        metadata := m.metadata.set block_id
          { zeroMetadata with block_id := block_id }
        deallocations := m.deallocations + 1 })

/-- `distfs_block_is_allocated` (out-of-range ids report `false`). -/
def distfs_block_is_allocated (m : BlockManager) (block_id : Nat) : Bool :=
  if m.total_blocks ≤ block_id then false else test_bit m.bits block_id

/-- The claiming loop of `distfs_block_allocate_batch` (lines 547-562):
`while (allocated < count && start_bit < total_blocks)` calls
`find_first_free_bit(bitmap.bits + start_bit / 64, total_blocks - start_bit)`
— a scan from the word-aligned base `64 * (start_bit / 64)` — and then
computes `block_id = found + start_bit`, adding the bit offset `start_bit`
to an index that is relative to the word-aligned base, sets that bit, records
it, and resumes after it.  `start_bit` strictly increases each iteration and
an iteration requires `start_bit < total_blocks`, so the loop runs at most
`total_blocks` times; `fuel` is initialized to `total_blocks` at the call
site, which therefore never exhausts before the loop condition fails. -/
def batch_scan_loop (total_blocks count : Nat) :
    List Bool → List Nat → Nat → Nat → List Bool × List Nat
  | bits, block_ids, _, 0 => (bits, block_ids)
  | bits, block_ids, start_bit, fuel + 1 =>
      if block_ids.length < count ∧ start_bit < total_blocks then
        match find_first_free_bit bits (64 * (start_bit / 64))
            (total_blocks - start_bit) with
        | none => (bits, block_ids)
        | some rel =>
            batch_scan_loop total_blocks count
              (set_bit bits (rel + start_bit))
              (block_ids ++ [rel + start_bit]) (rel + start_bit + 1) fuel
      else (bits, block_ids)

/-- `distfs_block_allocate_batch` (lines 529-596): rejects `count = 0`
(`InvalidParam`), returns `StorageFull` without touching state when fewer
than `count` blocks are free; runs the claiming loop; if it claimed fewer
than `count` blocks, rolls back by clearing every recorded bit and returns
`StorageFull`; otherwise commits: decrements both free counters by `count`
and rewrites the metadata record of every claimed id. -/
def distfs_block_allocate_batch (m : BlockManager) (count : Nat) (now : Nat) :
    DistfsError × BlockManager × List Nat :=
  if count = 0 then (DistfsError.invalidParam, m, [])
  else if m.bitmap_free_blocks < count then (DistfsError.storageFull, m, [])
  else
    let scanned := batch_scan_loop m.bitmap_total_blocks count m.bits [] 0
      m.bitmap_total_blocks
    let bits := scanned.1
    let block_ids := scanned.2
    if block_ids.length < count then
      (DistfsError.storageFull,
       { m with bits := block_ids.foldl (fun b i => clear_bit b i) bits },
       [])
    else
      (DistfsError.success,
       { m with
          bits := bits
          bitmap_free_blocks := m.bitmap_free_blocks - count
          free_blocks := m.free_blocks - count
          metadata := block_ids.foldl
            (fun md i =>
              md.set i
                { (md.getD i zeroMetadata) with
                    block_id := i, status := 1, created_time := now,
                    modified_time := now, ref_count := 1 }) m.metadata
          allocations := m.allocations + count },
       block_ids)

/-- `k` successive `distfs_block_allocate` calls (each at time 0). -/
def allocate_n (m : BlockManager) : Nat → BlockManager
  | 0 => m
  | k + 1 => (distfs_block_allocate (allocate_n m k) 0).1

/-- The invariant of claim C10: every in-range metadata record carries its
own index as `block_id`. -/
def metadata_ids_ok (m : BlockManager) : Prop :=
  ∀ i, i < m.total_blocks → (m.metadata.getD i zeroMetadata).block_id = i

/-- Concrete allocator state for the batch-allocation scenario: a fresh
8-block allocator, six blocks allocated (ids 0-5), then ids 1, 2 and 3
freed.  Allocated bits: {0, 4, 5}; free counter: 5. -/
def c2_pre : BlockManager :=
  let m := allocate_n (distfs_block_manager_create 8) 6
  let m := (distfs_block_free m 1).2
  let m := (distfs_block_free m 2).2
  (distfs_block_free m 3).2

/-- The batch allocation of 2 blocks on `c2_pre`. -/
def c2_post : DistfsError × BlockManager × List Nat :=
  distfs_block_allocate_batch c2_pre 2 0

/-- The state of a fresh 4-block allocator after `k` `allocate()` calls. -/
def c4_state (k : Nat) : BlockManager :=
  allocate_n (distfs_block_manager_create 4) k

/-- The return value of the `(k+1)`-th `allocate()` call on a fresh 4-block
allocator. -/
def c4_result (k : Nat) : Nat :=
  (distfs_block_allocate (c4_state k) 0).2

instance metadata_ids_ok_decidable (m : BlockManager) :
    Decidable (metadata_ids_ok m) :=
  inferInstanceAs (Decidable (∀ i, i < m.total_blocks →
    (m.metadata.getD i zeroMetadata).block_id = i))

/-! ## Hash functions and consistent-hash ring (`src/common/hash.c`) -/

/-- Truncation to a 32-bit unsigned value (`uint32_t` wrap-around). -/
def mask32 (x : Nat) : Nat := x % 4294967296

/-- 32-bit left rotation, `(k << r) | (k >> (32 - r))` on `uint32_t`. -/
def rotl32 (k r : Nat) : Nat := mask32 (k <<< r) ||| (k >>> (32 - r))

/-- `distfs_hash_fnv1a` in `src/common/hash.c`: FNV-1a over the byte string,
with 32-bit wrap-around on the multiply; null/empty input hashes to 0.
Bytes are `unsigned char`, so each is reduced mod 256. -/
def distfs_hash_fnv1a (data : List Nat) : Nat :=
  if data = [] then 0
  else data.foldl (fun h b => mask32 ((h ^^^ (b % 256)) * 0x01000193))
    0x811c9dc5

/-- `distfs_hash_string`: FNV-1a over the UTF-8 bytes of a C string. -/
def distfs_hash_string (s : String) : Nat :=
  distfs_hash_fnv1a (s.toUTF8.toList.map (fun b => b.toNat))

/-- Little-endian 32-bit load `*(uint32_t *)(bytes + off)` used by the
MurmurHash3 block loop. -/
def load32 (data : List Nat) (off : Nat) : Nat :=
  (data.getD off 0 % 256) + 256 * (data.getD (off + 1) 0 % 256) +
    65536 * (data.getD (off + 2) 0 % 256) +
    16777216 * (data.getD (off + 3) 0 % 256)

/-- One 4-byte block step of `distfs_hash_murmur3`. -/
def murmur3_block (hash k : Nat) : Nat :=
  let k := mask32 (k * 0xcc9e2d51)
  let k := rotl32 k 15
  let k := mask32 (k * 0x1b873593)
  let hash := hash ^^^ k
  let hash := rotl32 hash 13
  mask32 (hash * 5 + 0xe6546b64)

/-- `distfs_hash_murmur3` in `src/common/hash.c` (32-bit MurmurHash3):
processes whole 4-byte little-endian blocks, mixes the 1-3 tail bytes per
`len & 3`, then applies the final avalanche; null/empty input returns the
seed unchanged. -/
def distfs_hash_murmur3 (data : List Nat) (seed : Nat) : Nat :=
  if data = [] then seed
  else
    let len := data.length
    let nblocks := len / 4
    let hash := (List.range nblocks).foldl
      (fun h i => murmur3_block h (load32 data (4 * i))) seed
    let tail := data.drop (4 * nblocks)
    let hash :=
      if len % 4 = 0 then hash
      else
        let k1 :=
          if len % 4 = 3 then
            (tail.getD 0 0 % 256) + 256 * (tail.getD 1 0 % 256) +
              65536 * (tail.getD 2 0 % 256)
          else if len % 4 = 2 then
            (tail.getD 0 0 % 256) + 256 * (tail.getD 1 0 % 256)
          else tail.getD 0 0 % 256
        let k1 := mask32 (k1 * 0xcc9e2d51)
        let k1 := rotl32 k1 15
        let k1 := mask32 (k1 * 0x1b873593)
        hash ^^^ k1
    let hash := hash ^^^ mask32 len
    let hash := hash ^^^ (hash >>> 16)
    let hash := mask32 (hash * 0x85ebca6b)
    let hash := hash ^^^ (hash >>> 13)
    let hash := mask32 (hash * 0xc2b2ae35)
    hash ^^^ (hash >>> 16)

/-- One virtual placement point on the ring, from `hash_ring_node_t` in
`src/common/hash.c` (the `data` pointer carries no logical state). -/
structure HashRingNode where
  hash : Nat
  node_id : String
deriving DecidableEq, Repr

/-- The consistent-hash ring, from `struct distfs_hash_ring`.  The circular
singly-linked list is flattened starting at `ring->nodes` (the smallest-hash
node once built by `insert_ring_node`), so `nodes` is kept in ascending hash
order. -/
structure HashRing where
  nodes : List HashRingNode
  virtual_nodes : Nat
  node_count : Nat
deriving DecidableEq, Repr

/-- `distfs_hash_ring_create`: empty ring; a non-positive `virtual_nodes`
argument falls back to the default 150. -/
def distfs_hash_ring_create (virtual_nodes : Nat) : HashRing :=
  { nodes := []
    virtual_nodes := if 0 < virtual_nodes then virtual_nodes else 150
    node_count := 0 }

/-- `insert_ring_node`: walks the circular list from the head and inserts the
new node before the first entry with a strictly larger hash (so ties keep
insertion order); on the flattened sorted list this is ordered insertion. -/
def insert_ring_node : List HashRingNode → HashRingNode → List HashRingNode
  | [], n => [n]
  | c :: rest, n =>
      if n.hash < c.hash then n :: c :: rest else c :: insert_ring_node rest n

/-- `distfs_hash_ring_add_node`: inserts `virtual_nodes` placement points for
the physical node, each hashed from the virtual id `"<node_id>:<i>"`, and
counts one more physical node. -/
def distfs_hash_ring_add_node (ring : HashRing) (node_id : String) : HashRing :=
  { ring with
      nodes := (List.range ring.virtual_nodes).foldl
        (fun ns i =>
          insert_ring_node ns
            { hash := distfs_hash_string (node_id ++ ":" ++ toString i)
              node_id := node_id }) ring.nodes
      node_count := ring.node_count + 1 }

/-- `distfs_hash_ring_get_node` (lines 319-350): hashes the key with
MurmurHash3 (seed 0), scans the circular list from the head — which holds the
smallest hash — for the first virtual point with `hash >= key hash`, and
falls back to the head (wrap-around) when no such point exists.  Returns
`none` exactly where the C function returns `NULL` (null/empty key or empty
ring). -/
def distfs_hash_ring_get_node (ring : HashRing) (key : List Nat) :
    Option String :=
  if key = [] then none
  else
    match ring.nodes with
    | [] => none
    | head :: _ =>
        let hash := distfs_hash_murmur3 key 0
        match ring.nodes.find? (fun v => decide (hash ≤ v.hash)) with
        | some v => some v.node_id
        | none => some head.node_id

/-- The collection loop of `distfs_hash_ring_get_nodes`: walk the ring once
from the start point, append each virtual point's owner that has not been
selected yet, and stop as soon as the selection reaches `max_nodes` or
`node_count` entries (`count >= max_nodes || count >= ring->node_count`). -/
def collect_nodes (max_nodes node_count : Nat) :
    List HashRingNode → List String → List String
  | [], added => added
  | v :: rest, added =>
      if v.node_id ∈ added then collect_nodes max_nodes node_count rest added
      else
        let added' := added ++ [v.node_id]
        if max_nodes ≤ added'.length ∨ node_count ≤ added'.length then added'
        else collect_nodes max_nodes node_count rest added'

/-- `distfs_hash_ring_get_nodes` (lines 353-409): hashes the key, finds the
first virtual point at or after that hash (wrapping to the head when none
exists — `List.findIdx` returns the length then, and `rotate` by the length
is the identity), and walks the circle once from there collecting distinct
physical node ids.  Returns `[]` where the C function returns count 0
(null/empty key, `max_nodes <= 0`, or an empty ring). -/
def distfs_hash_ring_get_nodes (ring : HashRing) (key : List Nat)
    (max_nodes : Nat) : List String :=
  if key = [] ∨ max_nodes = 0 then []
  else if ring.nodes = [] ∨ ring.node_count = 0 then []
  else
    let hash := distfs_hash_murmur3 key 0
    let start := ring.nodes.findIdx (fun v => decide (hash ≤ v.hash))
    collect_nodes max_nodes ring.node_count (ring.nodes.rotate start) []

/-! ## CRC32 (`src/common/hash.c`) -/

/-- One bit-step of the CRC32 table construction: shift right, xor with the
reflected polynomial `0xEDB88320` when the low bit was set. -/
def crc32_step (crc : Nat) : Nat :=
  if crc % 2 = 1 then (crc / 2) ^^^ 0xEDB88320 else crc / 2

/-- `j` CRC32 bit-steps (the inner `for (j = 0; j < 8; j++)` loop of
`init_crc32_table`). -/
def crc32_rounds : Nat → Nat → Nat
  | 0, crc => crc
  | j + 1, crc => crc32_rounds j (crc32_step crc)

/-- Entry `i` of the CRC32 lookup table built by `init_crc32_table`. -/
def crc32_table_entry (i : Nat) : Nat := crc32_rounds 8 i

/-- `distfs_hash_crc32` in `src/common/hash.c`: table-driven CRC32 with
initial value `0xFFFFFFFF` and final inversion; null/empty input hashes
to 0.  Bytes are `unsigned char`, reduced mod 256. -/
def distfs_hash_crc32 (data : List Nat) : Nat :=
  if data = [] then 0
  else
    (data.foldl
      (fun crc b => crc32_table_entry ((crc ^^^ (b % 256)) % 256) ^^^ (crc >>> 8))
      0xFFFFFFFF) ^^^ 0xFFFFFFFF

/-! ## Storage node block I/O (`src/storage/storage_node.c`) -/

/-- Per-block bookkeeping, from `block_info_t` in
`src/storage/storage_node.c`.  The stored `file_path` is generated
deterministically and injectively from the block id by
`generate_block_path` (the file name embeds the full id in hex), so the
on-disk location is identified here by the block id itself. -/
structure BlockInfo where
  block_id : Nat
  size : Nat
  checksum : Nat
  created_time : Nat
  accessed_time : Nat
  ref_count : Nat
deriving DecidableEq, Repr

/-- The storage node state, from `struct distfs_storage_node`.  The
1024-bucket chained hash table `blocks[1024]` (bucket = `block_id % 1024`,
insertion by prepend, lookup = first match in the bucket) is flattened into
one list in recency order: entries of other buckets can never match a looked-
up id, so the first match in the flat list is the first match in the bucket.
`disk` is the sharded on-disk block directory: one file per block id (the
atomic `rename` replaces any previous file at the same path).  The network
server, replication queue and node identity fields carry no state relevant
to block I/O and are omitted. -/
structure StorageNode where
  blocks : List BlockInfo
  disk : List (Nat × List Nat)
  total_blocks : Nat
  total_reads : Nat
  total_writes : Nat
  bytes_read : Nat
  bytes_written : Nat
deriving DecidableEq, Repr

/-- A freshly created storage node (`distfs_storage_node_create`): no blocks,
empty data directory, zeroed counters. -/
def storage_node_create : StorageNode :=
  { blocks := [], disk := [], total_blocks := 0, total_reads := 0,
    total_writes := 0, bytes_read := 0, bytes_written := 0 }

/-- `find_block_info`: first entry with the looked-up id. -/
def find_block_info (s : StorageNode) (block_id : Nat) : Option BlockInfo :=
  s.blocks.find? (fun b => decide (b.block_id = block_id))

/-- Reading the file stored at the block path of `block_id`, if present
(`fopen` succeeds iff the file exists). -/
def disk_lookup (disk : List (Nat × List Nat)) (block_id : Nat) :
    Option (List Nat) :=
  (disk.find? (fun e => decide (e.1 = block_id))).map Prod.snd

/-- The atomic `rename(temp_path, block_path)`: installs the new contents,
replacing any previous file at that path. -/
def disk_store (disk : List (Nat × List Nat)) (block_id : Nat)
    (data : List Nat) : List (Nat × List Nat) :=
  (block_id, data) :: disk.eraseP (fun e => decide (e.1 = block_id))

/-- `unlink(block_path)`: removes the file. -/
def disk_remove (disk : List (Nat × List Nat)) (block_id : Nat) :
    List (Nat × List Nat) :=
  disk.eraseP (fun e => decide (e.1 = block_id))

/-- `remove_block_info`: unlinks the first matching entry from the bucket
chain (`total_blocks` is decremented by the caller state update). -/
def remove_block_info (blocks : List BlockInfo) (block_id : Nat) :
    List BlockInfo :=
  blocks.eraseP (fun b => decide (b.block_id = block_id))

/-- The in-place `block->accessed_time = time(NULL)` on the entry found by
`find_block_info`: updates the first matching entry. -/
def touch_block_info (blocks : List BlockInfo) (block_id now : Nat) :
    List BlockInfo :=
  match blocks with
  | [] => []
  | b :: rest =>
      if b.block_id = block_id then { b with accessed_time := now } :: rest
      else b :: touch_block_info rest block_id now

/-- `write_block` (lines 208-265): writes the bytes to a temporary file,
atomically renames it into place, records a `block_info_t` carrying the
size and the CRC32 checksum of the written bytes, and bumps the write
statistics.  (The file-system failure paths — `fopen`/`fwrite`/`rename`
errors — are I/O faults outside the state model; this is the successful
path, which is the one the round-trip claim quantifies over.) -/
def write_block (s : StorageNode) (block_id : Nat) (data : List Nat)
    (now : Nat) : DistfsError × StorageNode :=
  (DistfsError.success,
   { s with
      disk := disk_store s.disk block_id data
      blocks :=
        { block_id := block_id, size := data.length,
          checksum := distfs_hash_crc32 data, created_time := now,
          accessed_time := now, ref_count := 1 } :: s.blocks
      total_blocks := s.total_blocks + 1
      total_writes := s.total_writes + 1
      bytes_written := s.bytes_written + data.length })

/-- `read_block` (lines 268-329): looks the block up (`NotFound` if absent),
updates its access time, opens its file (`FileOpenFailed` if missing), reads
`block->size` bytes (`fread` returns at most the file's length; a short read
is a `SystemError`), recomputes the CRC32 over the bytes read and compares
it with the checksum recorded at write time (`ConsistencyViolation` on
mismatch), and returns the bytes. -/
def read_block (s : StorageNode) (block_id : Nat) (now : Nat) :
    (DistfsError ⊕ List Nat) × StorageNode :=
  match find_block_info s block_id with
  | none => (Sum.inl DistfsError.notFound, s)
  | some info =>
      let s := { s with blocks := touch_block_info s.blocks block_id now }
      match disk_lookup s.disk block_id with
      | none => (Sum.inl DistfsError.fileOpenFailed, s)
      | some bytes =>
          let buffer := bytes.take info.size
          if buffer.length ≠ info.size then
            (Sum.inl DistfsError.systemErr, s)
          else if distfs_hash_crc32 buffer ≠ info.checksum then
            (Sum.inl DistfsError.consistencyViolation, s)
          else
            (Sum.inr buffer,
             { s with total_reads := s.total_reads + 1,
                      bytes_read := s.bytes_read + info.size })

/-- `delete_block` (lines 332-358): `NotFound` when no block info exists;
otherwise unlinks the block's file (a failing `unlink` — no file — aborts
with `SystemError` before the info is removed) and removes the in-memory
entry.  No call into the block allocator occurs anywhere in this path. -/
def delete_block (s : StorageNode) (block_id : Nat) :
    DistfsError × StorageNode :=
  match find_block_info s block_id with
  | none => (DistfsError.notFound, s)
  | some _ =>
      match disk_lookup s.disk block_id with
      | none => (DistfsError.systemErr, s)
      | some _ =>
          (DistfsError.success,
           { s with
              disk := disk_remove s.disk block_id
              blocks := remove_block_info s.blocks block_id
              total_blocks := s.total_blocks - 1 })

/-- `handle_delete_block` (lines 443-468) acting on the whole per-node state
(block allocator and storage node service): the handler calls only
`delete_block(g_storage_node, block_id)`; there is no call into
`distfs_block_free` or any other allocator operation in the delete path, so
the allocator component passes through unchanged. -/
def handle_delete_block (alloc : BlockManager) (s : StorageNode)
    (block_id : Nat) : DistfsError × BlockManager × StorageNode :=
  let res := delete_block s block_id
  (res.1, alloc, res.2)

/-- Allocator with block 0 allocated, for the delete scenario. -/
def c5_alloc : BlockManager :=
  (distfs_block_allocate (distfs_block_manager_create 4) 0).1

/-- Storage node holding block 0 (bytes `[7, 8]`), for the delete scenario. -/
def c5_node : StorageNode :=
  (write_block storage_node_create 0 [7, 8] 0).2

/-! ## Wire protocol header (`include/network.h`) -/

/-- `DISTFS_HEADER_SIZE` in `include/network.h`, line 21. -/
def DISTFS_HEADER_SIZE : Nat := 16

/-- The byte sizes of the fields of the packed `distfs_msg_header_t`
(lines 81-89): `magic` (uint32), `version` (uint16), `type` (uint16),
`flags` (uint32), `length` (uint32), `sequence` (uint32), `checksum`
(uint32). -/
def msg_header_field_sizes : List Nat := [4, 2, 2, 4, 4, 4, 4]

/-- A concrete two-node ring (flattened list sorted by hash) used to witness
the ring-lookup theorems. -/
def c7_ring : HashRing :=
  { nodes := [{ hash := 5, node_id := "nodeA" }, { hash := 9, node_id := "nodeB" }]
    virtual_nodes := 150
    node_count := 2 }

/-- A concrete ring where one physical node owns two virtual points, used to
witness the `locate_n` theorem. -/
def c8_ring : HashRing :=
  { nodes := [{ hash := 10, node_id := "nodeA" },
              { hash := 20, node_id := "nodeB" },
              { hash := 30, node_id := "nodeA" }]
    virtual_nodes := 150
    node_count := 2 }

/-- A concrete non-empty key. -/
def c7_key : List Nat := [42]

/-! ### Supporting lemmas about the all-fail run -/

lemma count_true_replicate_false (n : Nat) :
    (List.replicate n false).count true = 0 := by
  induction n with
  | zero => rfl
  | succ n ih => simp [List.replicate_succ, List.count_cons, ih]

/-- One all-fail execution, in closed form: the retry counter increments and
the task re-enters the queue as `pending` while the counter is below
`max_retry_count`, else goes terminal `failed`. -/
lemma execute_all_fail (max_retry_count : Nat) (t : ReplicationTask) :
    execute_replication_task max_retry_count t
        (List.replicate t.target_nodes.length false) =
      if t.retry_count + 1 < max_retry_count then
        { t with status := ReplicationStatus.pending, completed_count := 0,
                 retry_count := t.retry_count + 1 }
      else
        { t with status := ReplicationStatus.failed, completed_count := 0,
                 retry_count := t.retry_count + 1 } := by
  simp only [execute_replication_task, count_true_replicate_false]
  norm_num

lemma iterate_all_fail_before_bound (max_retry_count : Nat)
    (t : ReplicationTask) (h0 : t.retry_count = 0) :
    ∀ k, k < max_retry_count →
      (iterate_all_fail max_retry_count t k).retry_count = k ∧
      (iterate_all_fail max_retry_count t k).target_nodes = t.target_nodes ∧
      (0 < k →
        (iterate_all_fail max_retry_count t k).status =
          ReplicationStatus.pending) := by
  intro k
  induction k with
  | zero =>
      intro _
      exact ⟨h0, rfl, fun h => absurd h (by omega)⟩
  | succ k ih =>
      intro hk
      obtain ⟨hr, htg, _⟩ := ih (by omega)
      simp only [iterate_all_fail]
      rw [execute_all_fail, hr, if_pos (by omega)]
      exact ⟨rfl, htg, fun _ => rfl⟩

/-- C1 (counterexample): with the manager's configured `max_retry_count = 3`
(the value set in `distfs_replication_manager_create`), a task whose every
per-target copy fails on every execution is already in terminal `failed`
status after 3 total executions — not after `max_retry_count + 1 = 4` as the
claim states, since `execute_replication_task` increments `retry_count` and
re-queues only while `retry_count < max_retry_count` holds after the
increment. -/
theorem replication_retry_counterexample :
    (iterate_all_fail default_max_retry_count
        (fresh_task 7 "src" ["tgtA", "tgtB"]) 3).status =
      ReplicationStatus.failed ∧
    (3 : Nat) ≠ default_max_retry_count + 1 := by
  constructor
  · rfl
  · decide

/-- C1 (amended): a task whose every per-target copy fails on every execution
reaches terminal `failed` after exactly `max_retry_count` total executions
(one initial attempt plus `max_retry_count - 1` retries, for
`max_retry_count ≥ 1`), never more: every earlier execution leaves it
`pending`. -/
theorem replication_retry_bound (max_retry_count : Nat) (t : ReplicationTask)
    (h0 : t.retry_count = 0) (h1 : 1 ≤ max_retry_count) :
    (iterate_all_fail max_retry_count t max_retry_count).status =
      ReplicationStatus.failed ∧
    ∀ k, 0 < k → k < max_retry_count →
      (iterate_all_fail max_retry_count t k).status =
        ReplicationStatus.pending := by
  constructor
  · obtain ⟨m, rfl⟩ : ∃ m, max_retry_count = m + 1 := ⟨max_retry_count - 1, by omega⟩
    obtain ⟨hr, htg, _⟩ :=
      iterate_all_fail_before_bound (m + 1) t h0 m (by omega)
    simp only [iterate_all_fail]
    rw [execute_all_fail, hr, if_neg (by omega)]
  · intro k hk0 hk
    exact (iterate_all_fail_before_bound max_retry_count t h0 k hk).2.2 hk0

/-- Witness for C1 (amended) at `max_retry_count = 3` and a concrete fresh
task: terminal `failed` is reached at the third execution. -/
theorem replication_retry_bound_witness :
    (iterate_all_fail 3 (fresh_task 7 "src" ["tgtA", "tgtB"]) 3).status =
      ReplicationStatus.failed :=
  (replication_retry_bound 3 (fresh_task 7 "src" ["tgtA", "tgtB"]) rfl
    (by decide)).1

/-- C3: one execution of a replication task marks it `completed` if and only
if at least one of its targets' copy operations succeeded in that execution
(`success_count > 0` in `execute_replication_task`), regardless of how many
other targets failed. -/
theorem replication_completed_iff_one_success (max_retry_count : Nat)
    (t : ReplicationTask) (results : List Bool) :
    (execute_replication_task max_retry_count t results).status =
      ReplicationStatus.completed ↔ true ∈ results := by
  have hmem : true ∈ results ↔ 0 < results.count true :=
    (List.count_pos_iff).symm
  simp only [execute_replication_task]
  by_cases h : 0 < results.count true
  · rw [if_pos h]
    exact ⟨fun _ => hmem.mpr h, fun _ => rfl⟩
  · rw [if_neg h]
    constructor
    · intro hst
      by_cases h2 : t.retry_count + 1 < max_retry_count
      · rw [if_pos h2] at hst
        exact absurd hst (by simp)
      · rw [if_neg h2] at hst
        exact absurd hst (by simp)
    · intro hmem2
      exact absurd (hmem.mp hmem2) h

/-! ### Supporting lemmas for the allocator -/

lemma getD_set {α : Type} (l : List α) (j i : Nat) (v d : α) :
    (l.set j v).getD i d = if j = i ∧ j < l.length then v else l.getD i d := by
  rcases Decidable.em (j = i ∧ j < l.length) with h | h
  · have hi : i < l.length := h.1 ▸ h.2
    rw [if_pos h, List.getD_eq_getElem?_getD, h.1, List.getElem?_set_self hi]
    rfl
  · rw [if_neg h]
    by_cases hj : j = i
    · have hlen : l.length ≤ j := by
        rcases Nat.lt_or_ge j l.length with h2 | h2
        · exact absurd ⟨hj, h2⟩ h
        · exact h2
      rw [List.set_eq_of_length_le hlen]
    · rw [List.getD_eq_getElem?_getD, List.getD_eq_getElem?_getD,
        List.getElem?_set_ne hj]

/-- Setting an index `j` to a record carrying `block_id = j` preserves the
"each record carries its own index" property of a metadata list. -/
lemma metadata_list_ok_set (md : List BlockMetadata) (total j : Nat)
    (r : BlockMetadata) (hr : r.block_id = j)
    (h : ∀ i, i < total → (md.getD i zeroMetadata).block_id = i) :
    ∀ i, i < total → ((md.set j r).getD i zeroMetadata).block_id = i := by
  intro i hi
  rw [getD_set]
  by_cases hcase : j = i ∧ j < md.length
  · rw [if_pos hcase, hr, hcase.1]
  · rw [if_neg hcase]
    exact h i hi

lemma metadata_list_ok_foldl (ids : List Nat) (now total : Nat) :
    ∀ md : List BlockMetadata,
      (∀ i, i < total → (md.getD i zeroMetadata).block_id = i) →
      ∀ i, i < total →
        ((ids.foldl (fun md j =>
            md.set j
              { (md.getD j zeroMetadata) with
                  block_id := j, status := 1, created_time := now,
                  modified_time := now, ref_count := 1 }) md).getD i
            zeroMetadata).block_id = i := by
  induction ids with
  | nil => intro md h; exact h
  | cons j rest ih =>
      intro md h
      exact ih _ (metadata_list_ok_set md total j _ rfl h)

/-- C2: `distfs_block_allocate_batch` breaks the bitmap/counter conservation
invariant.  On a fresh 8-block allocator, after allocating blocks 0-5 and
freeing 1, 2, 3 (allocated bits {0, 4, 5}, free counter 5), a batch
allocation of 2 blocks returns success with block ids `[1, 4]`: the loop adds
the bit offset `start_bit` to a scan index that is relative to the
word-aligned base, so the second claimed id is 4 — a block that was already
allocated — while bit 2 stays clear.  The resulting state has 4 clear bits
but a free counter of 3, so the number of clear bits no longer equals the
free-block counter. -/
theorem block_batch_conservation_bug :
    c2_post.1 = DistfsError.success ∧
    c2_post.2.2 = [1, 4] ∧
    test_bit c2_pre.bits 4 = true ∧
    test_bit c2_post.2.1.bits 2 = false ∧
    c2_post.2.1.bits.count false = 4 ∧
    c2_post.2.1.bitmap_free_blocks = 3 ∧
    c2_post.2.1.bits.count false ≠ c2_post.2.1.bitmap_free_blocks := by
  exact ⟨rfl, rfl, rfl, rfl, rfl, rfl, by decide⟩

/-- C4 (counterexample): on a fresh 4-block allocator the fifth `allocate()`
call — made when every block is taken — returns `0`, the very same value the
successful first call returned as a valid block id (block 0 was genuinely
allocated by that first call, and the fifth call left the state unchanged).
The exhaustion return is therefore not distinguishable from every valid
block id. -/
theorem block_allocate_exhaustion_counterexample :
    c4_result 4 = 0 ∧ c4_result 0 = 0 ∧
    distfs_block_is_allocated (c4_state 1) 0 = true ∧
    (distfs_block_allocate (c4_state 4) 0).1 = c4_state 4 := by
  exact ⟨rfl, rfl, rfl, rfl⟩

/-- C4 (amended): on a fresh 4-block allocator, four successive `allocate()`
calls succeed with the pairwise distinct ids 0, 1, 2, 3; the fifth call finds
no free block and returns the sentinel `0` with the state unchanged — a value
that coincides with the valid block id 0 returned by the first call, rather
than a `StorageFull` error value distinguishable from every valid id. -/
theorem block_allocate_exhaustion :
    c4_result 0 = 0 ∧ c4_result 1 = 1 ∧ c4_result 2 = 2 ∧ c4_result 3 = 3 ∧
    (c4_state 4).bitmap_free_blocks = 0 ∧
    c4_result 4 = 0 ∧
    (distfs_block_allocate (c4_state 4) 0).1 = c4_state 4 := by
  exact ⟨rfl, rfl, rfl, rfl, rfl, rfl, rfl⟩

/-- C10: in a freshly created allocator every metadata record carries its own
index as `block_id`, and each of `distfs_block_allocate`,
`distfs_block_free` and `distfs_block_allocate_batch` preserves this
(allocation rewrites the record's `block_id` to the found index; free zeroes
the record and then rewrites `block_id` to the freed index; batch rewrites
each claimed record's `block_id` to its claimed id). -/
theorem block_metadata_block_id_invariant (total_blocks : Nat)
    (m : BlockManager) (now block_id count : Nat)
    (hm : metadata_ids_ok m) :
    metadata_ids_ok (distfs_block_manager_create total_blocks) ∧
    metadata_ids_ok (distfs_block_allocate m now).1 ∧
    metadata_ids_ok (distfs_block_free m block_id).2 ∧
    metadata_ids_ok (distfs_block_allocate_batch m count now).2.1 := by
  refine ⟨?_, ?_, ?_, ?_⟩
  · intro i hi
    show (((List.range total_blocks).map
      (fun k => { zeroMetadata with block_id := k })).getD i
        zeroMetadata).block_id = i
    rw [List.getD_eq_getElem?_getD, List.getElem?_map,
      List.getElem?_range (show i < total_blocks from hi)]
    rfl
  · by_cases h0 : m.bitmap_free_blocks = 0
    · simp only [distfs_block_allocate, if_pos h0]
      exact hm
    · simp only [distfs_block_allocate, if_neg h0]
      cases hf : find_first_free_bit m.bits 0 m.bitmap_total_blocks with
      | none => exact hm
      | some bid =>
          intro i hi
          exact metadata_list_ok_set m.metadata m.total_blocks bid _ rfl hm i hi
  · by_cases h0 : m.total_blocks ≤ block_id
    · simp only [distfs_block_free, if_pos h0]
      exact hm
    · by_cases h1 : test_bit m.bits block_id = false
      · simp only [distfs_block_free, if_neg h0, if_pos h1]
        exact hm
      · simp only [distfs_block_free, if_neg h0, if_neg h1]
        intro i hi
        exact metadata_list_ok_set m.metadata m.total_blocks block_id _ rfl hm
          i hi
  · by_cases h0 : count = 0
    · simp only [distfs_block_allocate_batch, if_pos h0]
      exact hm
    · by_cases h1 : m.bitmap_free_blocks < count
      · simp only [distfs_block_allocate_batch, if_neg h0, if_pos h1]
        exact hm
      · simp only [distfs_block_allocate_batch, if_neg h0, if_neg h1]
        by_cases h2 : (batch_scan_loop m.bitmap_total_blocks count m.bits [] 0
            m.bitmap_total_blocks).2.length < count
        · simp only [if_pos h2]
          exact hm
        · simp only [if_neg h2]
          intro i hi
          exact metadata_list_ok_foldl _ now m.total_blocks m.metadata hm i hi

/-- Witness for C10: the invariant holds after one allocation on a fresh
4-block allocator. -/
theorem block_metadata_block_id_invariant_witness :
    metadata_ids_ok
      (distfs_block_allocate (distfs_block_manager_create 4) 0).1 :=
  (block_metadata_block_id_invariant 4 (distfs_block_manager_create 4) 0 1 2
    (by decide)).2.1

/-! ### Supporting lemmas for the hash ring -/

lemma find?_ge_none_lt (h : Nat) (l : List HashRingNode)
    (hf : l.find? (fun v => decide (h ≤ v.hash)) = none) :
    ∀ w ∈ l, w.hash < h := by
  intro w hw
  have h2 : ¬(h ≤ w.hash) := by
    simpa using List.find?_eq_none.mp hf w hw
  omega

lemma find?_ge_some_spec (h : Nat) :
    ∀ l : List HashRingNode,
      List.Sorted (fun a b => a.hash ≤ b.hash) l →
      ∀ v, l.find? (fun v => decide (h ≤ v.hash)) = some v →
        v ∈ l ∧ h ≤ v.hash ∧ ∀ w ∈ l, h ≤ w.hash → v.hash ≤ w.hash := by
  intro l
  induction l with
  | nil => intro _ v hv; simp at hv
  | cons a t ih =>
      intro hs v hv
      by_cases hpa : h ≤ a.hash
      · rw [List.find?_cons_of_pos _ (by simpa using hpa)] at hv
        cases hv
        refine ⟨List.mem_cons_self a t, hpa, ?_⟩
        intro w hw _
        rcases List.mem_cons.mp hw with rfl | hw2
        · exact Nat.le_refl _
        · exact (List.sorted_cons.mp hs).1 w hw2
      · rw [List.find?_cons_of_neg _ (by simpa using hpa)] at hv
        obtain ⟨hmem, hge, hmin⟩ := ih (List.sorted_cons.mp hs).2 v hv
        refine ⟨List.mem_cons_of_mem a hmem, hge, ?_⟩
        intro w hw hwge
        rcases List.mem_cons.mp hw with rfl | hw2
        · exact absurd hwge hpa
        · exact hmin w hw2 hwge

/-- C7: on a non-empty ring whose flattened list is in ascending hash order
(the order `insert_ring_node` maintains), `distfs_hash_ring_get_node`
returns the owning node of a virtual point whose hash is the smallest hash
`≥ hash(key)` among the ring's points, and wraps to a minimal-hash point
when every point hashes below the key.  Determinism for a fixed ring and key
is the last conjunct (the lookup is a pure function of the ring contents and
the key). -/
theorem ring_locate_successor (ring : HashRing) (key : List Nat)
    (hkey : key ≠ []) (hne : ring.nodes ≠ [])
    (hsorted : List.Sorted (fun a b => a.hash ≤ b.hash) ring.nodes) :
    (∃ v ∈ ring.nodes,
      distfs_hash_ring_get_node ring key = some v.node_id ∧
      ((∃ w ∈ ring.nodes, distfs_hash_murmur3 key 0 ≤ w.hash) →
        distfs_hash_murmur3 key 0 ≤ v.hash ∧
        ∀ w ∈ ring.nodes, distfs_hash_murmur3 key 0 ≤ w.hash →
          v.hash ≤ w.hash) ∧
      ((∀ w ∈ ring.nodes, w.hash < distfs_hash_murmur3 key 0) →
        ∀ w ∈ ring.nodes, v.hash ≤ w.hash)) ∧
    distfs_hash_ring_get_node ring key = distfs_hash_ring_get_node ring key := by
  refine ⟨?_, rfl⟩
  obtain ⟨head, t, hnodes⟩ : ∃ a t, ring.nodes = a :: t := by
    cases hn : ring.nodes with
    | nil => exact absurd hn hne
    | cons a t => exact ⟨a, t, rfl⟩
  have hget : distfs_hash_ring_get_node ring key =
      match ring.nodes.find?
          (fun v => decide (distfs_hash_murmur3 key 0 ≤ v.hash)) with
      | some v => some v.node_id
      | none => some head.node_id := by
    rw [distfs_hash_ring_get_node, if_neg hkey, hnodes]
  cases hf : ring.nodes.find?
      (fun v => decide (distfs_hash_murmur3 key 0 ≤ v.hash)) with
  | some v =>
      obtain ⟨hmem, hge, hmin⟩ :=
        find?_ge_some_spec (distfs_hash_murmur3 key 0) ring.nodes hsorted v hf
      refine ⟨v, hmem, by rw [hget, hf], fun _ => ⟨hge, hmin⟩, ?_⟩
      intro hall
      exact absurd hge (by have := hall v hmem; omega)
  | none =>
      have hall := find?_ge_none_lt (distfs_hash_murmur3 key 0) ring.nodes hf
      have hhead : head ∈ ring.nodes := by rw [hnodes]; exact List.mem_cons_self head t
      have hmin : ∀ w ∈ ring.nodes, head.hash ≤ w.hash := by
        intro w hw
        rw [hnodes] at hw
        rcases List.mem_cons.mp hw with rfl | hw2
        · exact Nat.le_refl _
        · exact (List.sorted_cons.mp (hnodes ▸ hsorted)).1 w hw2
      refine ⟨head, hhead, by rw [hget, hf], ?_, fun _ => hmin⟩
      intro hex
      obtain ⟨w, hw, hwge⟩ := hex
      exact absurd hwge (by have := hall w hw; omega)

/-- Witness for C7 on the concrete sorted two-node ring `c7_ring`. -/
theorem ring_locate_successor_witness :
    (∃ v ∈ c7_ring.nodes,
      distfs_hash_ring_get_node c7_ring c7_key = some v.node_id ∧
      ((∃ w ∈ c7_ring.nodes, distfs_hash_murmur3 c7_key 0 ≤ w.hash) →
        distfs_hash_murmur3 c7_key 0 ≤ v.hash ∧
        ∀ w ∈ c7_ring.nodes, distfs_hash_murmur3 c7_key 0 ≤ w.hash →
          v.hash ≤ w.hash) ∧
      ((∀ w ∈ c7_ring.nodes, w.hash < distfs_hash_murmur3 c7_key 0) →
        ∀ w ∈ c7_ring.nodes, v.hash ≤ w.hash)) ∧
    distfs_hash_ring_get_node c7_ring c7_key =
      distfs_hash_ring_get_node c7_ring c7_key :=
  ring_locate_successor c7_ring c7_key (by decide) (by decide) (by decide)

lemma collect_nodes_append (b c : Nat) :
    ∀ (l : List HashRingNode) (acc : List String),
      ∃ t, collect_nodes b c l acc = acc ++ t := by
  intro l
  induction l with
  | nil => intro acc; exact ⟨[], (List.append_nil acc).symm⟩
  | cons v rest ih =>
      intro acc
      simp only [collect_nodes]
      by_cases hmem : v.node_id ∈ acc
      · rw [if_pos hmem]; exact ih acc
      · rw [if_neg hmem]
        by_cases hbrk : b ≤ (acc ++ [v.node_id]).length ∨
            c ≤ (acc ++ [v.node_id]).length
        · rw [if_pos hbrk]; exact ⟨[v.node_id], rfl⟩
        · rw [if_neg hbrk]
          obtain ⟨t, ht⟩ := ih (acc ++ [v.node_id])
          exact ⟨[v.node_id] ++ t, by rw [ht, List.append_assoc]⟩

lemma collect_nodes_nodup (b c : Nat) :
    ∀ (l : List HashRingNode) (acc : List String), acc.Nodup →
      (collect_nodes b c l acc).Nodup := by
  intro l
  induction l with
  | nil => intro acc h; exact h
  | cons v rest ih =>
      intro acc hacc
      simp only [collect_nodes]
      by_cases hmem : v.node_id ∈ acc
      · rw [if_pos hmem]; exact ih acc hacc
      · rw [if_neg hmem]
        have hacc2 : (acc ++ [v.node_id]).Nodup := by
          rw [List.nodup_append]
          refine ⟨hacc, List.nodup_singleton _, ?_⟩
          intro x hx hx2
          rw [List.mem_singleton] at hx2
          exact hmem (hx2 ▸ hx)
        by_cases hbrk : b ≤ (acc ++ [v.node_id]).length ∨
            c ≤ (acc ++ [v.node_id]).length
        · rw [if_pos hbrk]; exact hacc2
        · rw [if_neg hbrk]; exact ih _ hacc2

lemma collect_nodes_subset (b c : Nat) :
    ∀ (l : List HashRingNode) (acc : List String) (x : String),
      x ∈ collect_nodes b c l acc →
      x ∈ acc ∨ x ∈ l.map HashRingNode.node_id := by
  intro l
  induction l with
  | nil => intro acc x hx; exact Or.inl hx
  | cons v rest ih =>
      intro acc x hx
      simp only [collect_nodes] at hx
      by_cases hmem : v.node_id ∈ acc
      · rw [if_pos hmem] at hx
        rcases ih acc x hx with h | h
        · exact Or.inl h
        · exact Or.inr (by simp [h])
      · rw [if_neg hmem] at hx
        by_cases hbrk : b ≤ (acc ++ [v.node_id]).length ∨
            c ≤ (acc ++ [v.node_id]).length
        · rw [if_pos hbrk] at hx
          rcases List.mem_append.mp hx with h | h
          · exact Or.inl h
          · rw [List.mem_singleton] at h
            exact Or.inr (by simp [h])
        · rw [if_neg hbrk] at hx
          rcases ih _ x hx with h | h
          · rcases List.mem_append.mp h with h2 | h2
            · exact Or.inl h2
            · rw [List.mem_singleton] at h2
              exact Or.inr (by simp [h2])
          · exact Or.inr (by simp [h])

lemma collect_nodes_le (b c : Nat) :
    ∀ (l : List HashRingNode) (acc : List String),
      acc.length < min b c → (collect_nodes b c l acc).length ≤ min b c := by
  intro l
  induction l with
  | nil => intro acc h; exact Nat.le_of_lt h
  | cons v rest ih =>
      intro acc hlt
      simp only [collect_nodes]
      by_cases hmem : v.node_id ∈ acc
      · rw [if_pos hmem]; exact ih acc hlt
      · rw [if_neg hmem]
        by_cases hbrk : b ≤ (acc ++ [v.node_id]).length ∨
            c ≤ (acc ++ [v.node_id]).length
        · rw [if_pos hbrk]
          rw [List.length_append, List.length_singleton]
          omega
        · rw [if_neg hbrk]
          refine ih _ ?_
          rw [List.length_append, List.length_singleton]
          rw [List.length_append, List.length_singleton] at hbrk
          omega

lemma collect_nodes_complete (b c : Nat) :
    ∀ (l : List HashRingNode) (acc : List String),
      (collect_nodes b c l acc).length < min b c →
      ∀ v ∈ l, v.node_id ∈ collect_nodes b c l acc := by
  intro l
  induction l with
  | nil => intro acc _ v hv; simp at hv
  | cons v rest ih =>
      intro acc hlt w hw
      simp only [collect_nodes] at hlt ⊢
      by_cases hmem : v.node_id ∈ acc
      · rw [if_pos hmem] at hlt ⊢
        rcases List.mem_cons.mp hw with rfl | hw2
        · obtain ⟨t, ht⟩ := collect_nodes_append b c rest acc
          rw [ht]
          exact List.mem_append_left t hmem
        · exact ih acc hlt w hw2
      · rw [if_neg hmem] at hlt ⊢
        by_cases hbrk : b ≤ (acc ++ [v.node_id]).length ∨
            c ≤ (acc ++ [v.node_id]).length
        · rw [if_pos hbrk] at hlt
          rw [List.length_append, List.length_singleton] at hlt hbrk
          omega
        · rw [if_neg hbrk] at hlt ⊢
          have hvmem : v.node_id ∈ acc ++ [v.node_id] :=
            List.mem_append_right acc (List.mem_singleton.mpr rfl)
          rcases List.mem_cons.mp hw with rfl | hw2
          · obtain ⟨t, ht⟩ := collect_nodes_append b c rest (acc ++ [w.node_id])
            rw [ht]
            exact List.mem_append_left t hvmem
          · exact ih _ hlt w hw2

/-- C8: for a non-empty ring whose physical-node counter equals the number of
distinct owning ids among its virtual points (`m` physical nodes), and any
non-empty key and `max_nodes = n > 0`, `distfs_hash_ring_get_nodes` returns a
list of pairwise distinct physical node ids of length exactly `min n m`; in
particular when `m < n` it returns the `m` available nodes as a normal
result. -/
theorem ring_locate_n_distinct (ring : HashRing) (key : List Nat)
    (max_nodes : Nat) (hkey : key ≠ []) (hne : ring.nodes ≠ [])
    (hmax : 0 < max_nodes)
    (hcount : ring.node_count =
      ((ring.nodes.map HashRingNode.node_id).dedup).length) :
    (distfs_hash_ring_get_nodes ring key max_nodes).Nodup ∧
    (distfs_hash_ring_get_nodes ring key max_nodes).length =
      min max_nodes ring.node_count := by
  obtain ⟨head, t, hnodes⟩ : ∃ a t, ring.nodes = a :: t := by
    cases hn : ring.nodes with
    | nil => exact absurd hn hne
    | cons a t => exact ⟨a, t, rfl⟩
  have hm_pos : 0 < ring.node_count := by
    have hmem : head.node_id ∈ (ring.nodes.map HashRingNode.node_id).dedup := by
      rw [List.mem_dedup]
      exact List.mem_map_of_mem _ (hnodes ▸ List.mem_cons_self head t)
    rw [hcount]
    exact List.length_pos.mpr (List.ne_nil_of_mem hmem)
  have hg1 : ¬(key = [] ∨ max_nodes = 0) := by
    rintro (h1 | h2)
    · exact hkey h1
    · omega
  have hg2 : ¬(ring.nodes = [] ∨ ring.node_count = 0) := by
    rintro (h1 | h2)
    · exact hne h1
    · omega
  have hguard : distfs_hash_ring_get_nodes ring key max_nodes =
      collect_nodes max_nodes ring.node_count
        (ring.nodes.rotate (ring.nodes.findIdx
          (fun v => decide (distfs_hash_murmur3 key 0 ≤ v.hash)))) [] := by
    rw [distfs_hash_ring_get_nodes, if_neg hg1, if_neg hg2]
  set walk := ring.nodes.rotate (ring.nodes.findIdx
    (fun v => decide (distfs_hash_murmur3 key 0 ≤ v.hash))) with hwalk
  set r := collect_nodes max_nodes ring.node_count walk [] with hr
  have hperm : List.Perm (walk.map HashRingNode.node_id)
      (ring.nodes.map HashRingNode.node_id) :=
    (List.rotate_perm ring.nodes _).map HashRingNode.node_id
  have hdedup : (walk.map HashRingNode.node_id).dedup.length =
      ring.node_count := by
    rw [hcount]
    exact hperm.dedup.length_eq
  have hnodup : r.Nodup :=
    collect_nodes_nodup max_nodes ring.node_count walk [] List.nodup_nil
  have hsub : ∀ x ∈ r, x ∈ walk.map HashRingNode.node_id := by
    intro x hx
    rcases collect_nodes_subset max_nodes ring.node_count walk [] x hx with
      h | h
    · simp at h
    · exact h
  have hlen_le : r.length ≤ min max_nodes ring.node_count := by
    refine collect_nodes_le max_nodes ring.node_count walk [] ?_
    simp only [List.length_nil]
    omega
  have hlen_le_m : r.length ≤ ring.node_count := by
    have h1 : r.toFinset.card = r.length := List.toFinset_card_of_nodup hnodup
    have h2 : r.toFinset ⊆ (walk.map HashRingNode.node_id).toFinset := by
      intro x hx
      rw [List.mem_toFinset] at hx ⊢
      exact hsub x hx
    have h3 := Finset.card_le_card h2
    rw [h1, List.card_toFinset, hdedup] at h3
    exact h3
  rcases Nat.lt_or_ge r.length (min max_nodes ring.node_count) with hlt | hge
  · exfalso
    have hall := collect_nodes_complete max_nodes ring.node_count walk [] hlt
    have hcard : ring.node_count ≤ r.length := by
      have h2 : (walk.map HashRingNode.node_id).toFinset ⊆ r.toFinset := by
        intro x hx
        rw [List.mem_toFinset] at hx ⊢
        obtain ⟨v, hv, rfl⟩ := List.mem_map.mp hx
        exact hall v hv
      have h3 := Finset.card_le_card h2
      rw [List.card_toFinset, hdedup] at h3
      exact h3.trans (List.toFinset_card_le r)
    omega
  · constructor
    · rw [hguard]; exact hnodup
    · rw [hguard]; omega

/-- Witness for C8 on the concrete ring `c8_ring` (three virtual points,
two distinct physical nodes) with `max_nodes = 5`. -/
theorem ring_locate_n_distinct_witness :
    (distfs_hash_ring_get_nodes c8_ring c7_key 5).Nodup ∧
    (distfs_hash_ring_get_nodes c8_ring c7_key 5).length =
      min 5 c8_ring.node_count :=
  ring_locate_n_distinct c8_ring c7_key 5 (by decide) (by decide) (by decide)
    (by decide)

/-! ### Supporting lemmas for the storage node -/

lemma disk_lookup_remove_self (d : List (Nat × List Nat)) (K : Nat)
    (hnd : (d.map Prod.fst).Nodup) :
    disk_lookup (disk_remove d K) K = none := by
  induction d with
  | nil => rfl
  | cons e rest ih =>
      rw [List.map_cons, List.nodup_cons] at hnd
      obtain ⟨hnotin, hrest⟩ := hnd
      by_cases hk : e.1 = K
      · have h1 : disk_remove (e :: rest) K = rest := by
          rw [disk_remove, List.eraseP_cons_of_pos (by simpa using hk)]
        rw [h1, disk_lookup]
        have hfind : rest.find? (fun x => decide (x.1 = K)) = none := by
          rw [List.find?_eq_none]
          intro x hx
          simp only [decide_eq_true_eq]
          intro hxk
          exact hnotin (hk ▸ hxk ▸ List.mem_map_of_mem Prod.fst hx)
        rw [hfind]
        rfl
      · have h1 : disk_remove (e :: rest) K = e :: disk_remove rest K := by
          rw [disk_remove, List.eraseP_cons_of_neg (by simpa using hk)]
          rfl
        rw [h1, disk_lookup, List.find?_cons_of_neg _ (by simpa using hk)]
        exact ih hrest

/-- C5 (counterexample): with a concrete per-node state — a block allocator
whose block 0 is allocated and a storage node holding block 0 — the delete
request succeeds, yet afterwards the allocator still reports block 0 as
allocated: `handle_delete_block` never calls into the block allocator, so
the deleted id is not released. -/
theorem delete_ignores_allocator_counterexample :
    (handle_delete_block c5_alloc c5_node 0).1 = DistfsError.success ∧
    distfs_block_is_allocated c5_alloc 0 = true ∧
    distfs_block_is_allocated
      (handle_delete_block c5_alloc c5_node 0).2.1 0 = true := by
  exact ⟨rfl, rfl, rfl⟩

/-- C5 (amended): the storage node's delete removes the in-memory entry's
on-disk file and fails with `NotFound` on an id with no stored block,
leaving all state unchanged; but it does NOT release the block id back to
the block allocator — the allocator component of the per-node state passes
through every delete request unchanged. -/
theorem delete_block_no_allocator_release (alloc : BlockManager)
    (s : StorageNode) (K : Nat)
    (hnodup : (s.disk.map Prod.fst).Nodup) :
    (handle_delete_block alloc s K).2.1 = alloc ∧
    (find_block_info s K = none →
      handle_delete_block alloc s K = (DistfsError.notFound, alloc, s)) ∧
    ((handle_delete_block alloc s K).1 = DistfsError.success →
      disk_lookup (handle_delete_block alloc s K).2.2.disk K = none) := by
  refine ⟨rfl, ?_, ?_⟩
  · intro hnone
    simp only [handle_delete_block, delete_block, hnone]
  · intro hsucc
    simp only [handle_delete_block, delete_block] at hsucc ⊢
    cases hf : find_block_info s K with
    | none =>
        rw [hf] at hsucc
        simp at hsucc
    | some info =>
        cases hd : disk_lookup s.disk K with
        | none =>
            rw [hf, hd] at hsucc
            simp at hsucc
        | some bytes => exact disk_lookup_remove_self s.disk K hnodup

/-- Witness for C5 (amended) on the concrete delete scenario. -/
theorem delete_block_no_allocator_release_witness :
    (handle_delete_block c5_alloc c5_node 0).2.1 = c5_alloc :=
  (delete_block_no_allocator_release c5_alloc c5_node 0 (by decide)).1

/-- C6: for every byte sequence `B` and block id `K`, a write of `B` to `K`
followed by a read of `K` returns exactly `B`, and the checksum stored by
the write equals the CRC32 recomputed over `B` at read time (so the read's
consistency check passes). -/
theorem write_read_round_trip (s : StorageNode) (K : Nat) (B : List Nat)
    (now now2 : Nat) :
    (read_block (write_block s K B now).2 K now2).1 = Sum.inr B ∧
    (find_block_info (write_block s K B now).2 K).map BlockInfo.checksum =
      some (distfs_hash_crc32 B) := by
  have hfind : find_block_info (write_block s K B now).2 K =
      some { block_id := K, size := B.length,
             checksum := distfs_hash_crc32 B, created_time := now,
             accessed_time := now, ref_count := 1 } := by
    rw [find_block_info]
    exact List.find?_cons_of_pos _ (by simp)
  have hdisk : disk_lookup (write_block s K B now).2.disk K = some B := by
    show disk_lookup (disk_store s.disk K B) K = some B
    rw [disk_lookup, disk_store, List.find?_cons_of_pos _ (by simp)]
    rfl
  constructor
  · rw [read_block, hfind]
    simp only [hdisk, List.take_length]
    rw [if_neg (by simp), if_neg (by simp)]
  · rw [hfind]
    rfl

/-- C9: the declared wire header-size constant `DISTFS_HEADER_SIZE` is 16
bytes while the packed `distfs_msg_header_t` field layout (magic 4 +
version 2 + type 2 + flags 4 + length 4 + sequence 4 + checksum 4) sums to
24 bytes, so the constant does not equal the byte size of the header
layout. -/
theorem header_size_mismatch :
    DISTFS_HEADER_SIZE = 16 ∧ msg_header_field_sizes.sum = 24 ∧
    DISTFS_HEADER_SIZE ≠ msg_header_field_sizes.sum := by
  refine ⟨rfl, rfl, by decide⟩

end DistFS
